import Mathlib

/-
Shallow embedding of `neutron/agent/linux/ovs_lib.py` and proofs about it.

Python dictionaries of string-valued flow fields are modelled as association
lists (`Dict`), processed in list order (the model's fixed iteration order).
Fallible code (`exceptions.InvalidInput`) is modelled with `Except String`.
Commands handed to the external executor are modelled as explicit values
returned by the embedded functions rather than performed as effects.
-/

namespace OvsLib

/-- Special return value for an invalid OVS ofport (`INVALID_OFPORT = '-1'`). -/
def INVALID_OFPORT : String := "-1"

/-- Association-list model of a Python `dict` with string keys and values. -/
abbrev Dict := List (String × String)

/-- Model of Python `k in d` for a dict. -/
def containsKey (d : Dict) (k : String) : Bool :=
  d.any (fun p => p.1 == k)

/-- Keys of a dict, in iteration order. -/
def dictKeys (d : Dict) : List String :=
  d.map Prod.fst

/-- Model of Python `d[k]` lookup (first binding; `""` when absent, which the
code only reaches after an explicit `in` check). -/
def lookupD (d : Dict) (k : String) : String :=
  match d.find? (fun p => p.1 == k) with
  | some p => p.2
  | none => ""

/-- Model of Python `d.pop(k)`: the removed value (if any) together with the
dict with the first binding of `k` removed. -/
def dictPop (k : String) : Dict → Option String × Dict
  | [] => (none, [])
  | (k', v) :: rest =>
      if k' == k then (some v, rest)
      else
        let r := dictPop k rest
        (r.1, (k', v) :: r.2)

/-- Model of Python `d.pop(k, dflt)`. -/
def dictPopD (k dflt : String) (d : Dict) : String × Dict :=
  match dictPop k d with
  | (some v, d') => (v, d')
  | (none, d') => (dflt, d')

/-- Rendering of one remaining field in `_build_flow_expr_str`'s final loop:
`proto` is rendered as a bare value, anything else as `key=value`. -/
def flowToken (p : String × String) : String :=
  if p.1 == "proto" then p.2 else p.1 ++ "=" ++ p.2

/-- Embedding of `_build_flow_expr_str(flow_dict, cmd)`.  Returns the rendered
flow expression together with the mutated dict (the Python function mutates
`flow_dict` in place via `pop`); `Except.error` models raising
`exceptions.InvalidInput`. -/
def build_flow_expr_str (flow_dict : Dict) (cmd : String) :
    Except String (String × Dict) :=
  if cmd == "add" then
    let p1 := dictPopD "hard_timeout" "0" flow_dict
    let p2 := dictPopD "idle_timeout" "0" p1.2
    let p3 := dictPopD "priority" "1" p2.2
    let hdr := ["hard_timeout=" ++ p1.1, "idle_timeout=" ++ p2.1,
                "priority=" ++ p3.1]
    if !containsKey p3.2 "actions" then
      .error "Must specify one or more actions on flow addition or modification"
    else
      let pa := dictPop "actions" p3.2
      let d' := pa.2
      let actStr := "actions=" ++ (match pa.1 with | some v => v | none => "")
      .ok (String.intercalate "," (hdr ++ d'.map flowToken ++ [actStr]), d')
  else if containsKey flow_dict "priority" then
    .error "Cannot match priority on flow deletion or modification"
  else if cmd != "del" then
    if !containsKey flow_dict "actions" then
      .error "Must specify one or more actions on flow addition or modification"
    else
      let pa := dictPop "actions" flow_dict
      let d' := pa.2
      let actStr := "actions=" ++ (match pa.1 with | some v => v | none => "")
      .ok (String.intercalate "," (d'.map flowToken ++ [actStr]), d')
  else
    .ok (String.intercalate "," (flow_dict.map flowToken), flow_dict)

/-- A command sent to the external `ovs-ofctl` executor: the sub-command
(`'%s-flows' % action`) and the stdin payload (newline-joined expressions). -/
abbrev OfctlCommand := String × String

/-- Embedding of `OVSBridge.do_action_flows(action, kwargs_list)`: renders every
rule first (the list comprehension), then issues a single `run_ofctl` command.
Returns the issued command and the mutated rule dicts; an error means the
validation exception was raised before any command was issued. -/
def do_action_flows (action : String) (kwargs_list : List Dict) :
    Except String (OfctlCommand × List Dict) := do
  let rendered ← kwargs_list.mapM (fun kw => build_flow_expr_str kw action)
  pure ((action ++ "-flows", String.intercalate "\n" (rendered.map Prod.fst)),
        rendered.map Prod.snd)

/-- Kind of a buffered flow operation: the first component of the tuples
appended by `DeferredOVSBridge.add_flow` / `mod_flow` / `delete_flows`. -/
inductive FlowKind
  | add
  | mod
  | del
deriving DecidableEq, Repr

/-- A buffered operation: the `(action, kwargs)` tuple of
`DeferredOVSBridge.action_flow_tuples`. -/
abbrev FlowOp := FlowKind × Dict

/-- Weight of a kind under an ordering, modelling
`self.weights = dict((y, x) for x, y in enumerate(self.order))` followed by
`self.weights[af[0]]`. -/
def weight_of (order : List FlowKind) (k : FlowKind) : Nat :=
  order.indexOf k

/-- Stable insertion of `x` into `l`: `x` is placed after every element of
smaller-or-equal weight, modelling how Python's stable `list.sort` orders a
newly considered element relative to an already sorted prefix. -/
def insertStable (w : FlowOp → Nat) (x : FlowOp) : List FlowOp → List FlowOp
  | [] => [x]
  | y :: ys => if w y ≤ w x then y :: insertStable w x ys else x :: y :: ys

/-- Stable sort by weight, modelling `list.sort(key=...)` (Python's sort is
stable: same-weight elements keep their relative order). -/
def stableSort (w : FlowOp → Nat) (l : List FlowOp) : List FlowOp :=
  l.foldl (fun acc x => insertStable w x acc) []

/-- Accumulating loop of the `itertools.groupby` model: `k` is the current
group's key and `acc` the reversed rules collected for it. -/
def groupGo (k : FlowKind) (acc : List Dict) : List FlowOp →
    List (FlowKind × List Dict)
  | [] => [(k, acc.reverse)]
  | (k', r) :: rest =>
      if k' = k then groupGo k (r :: acc) rest
      else (k, acc.reverse) :: groupGo k' [r] rest

/-- Model of `itertools.groupby(l, key=itemgetter(0))` followed by taking
`map(itemgetter(1), group)`: maximal contiguous runs of equal kind. -/
def groupByKind : List FlowOp → List (FlowKind × List Dict)
  | [] => []
  | (k, r) :: rest => groupGo k [r] rest

/-- Configuration of a `DeferredOVSBridge` (its `full_ordered` and `order`
constructor parameters). -/
structure DeferredConfig where
  full_ordered : Bool
  order : List FlowKind
deriving Repr

/-- The default construction `DeferredOVSBridge(br)`. -/
def defaultConfig : DeferredConfig :=
  { full_ordered := false, order := [.add, .mod, .del] }

/-- Mutable state of a `DeferredOVSBridge`: its `action_flow_tuples` buffer. -/
structure DeferredState where
  buffer : List FlowOp
deriving Repr

/-- Model of `add_flow` / `mod_flow` / `delete_flows`: append one tuple. -/
def buffer_flow (k : FlowKind) (kw : Dict) (st : DeferredState) : DeferredState :=
  { st with buffer := st.buffer ++ [(k, kw)] }

/-- The batched `do_action_flows` calls that `apply_flows` issues for a given
buffer: sort (unless `full_ordered`), group contiguously by kind, one call per
group. -/
def apply_flows_commands (cfg : DeferredConfig) (buf : List FlowOp) :
    List (FlowKind × List Dict) :=
  if buf.isEmpty then []
  else
    groupByKind
      (if cfg.full_ordered then buf else stableSort (fun af => weight_of cfg.order af.1) buf)

/-- Embedding of `DeferredOVSBridge.apply_flows`: the buffer is swapped to `[]`
first, then the batched calls are made.  Returns the new state and the issued
calls. -/
def apply_flows (cfg : DeferredConfig) (st : DeferredState) :
    DeferredState × List (FlowKind × List Dict) :=
  ({ buffer := [] }, apply_flows_commands cfg st.buffer)

/-- Issue a list of batched calls through an executor that may fail; stops at
the first failure (the exception propagating out of `do_action_flows`). -/
def issueAll {E : Type} (exec : FlowKind × List Dict → Except E Unit) :
    List (FlowKind × List Dict) → Except E Unit
  | [] => .ok ()
  | c :: cs => do
      let _ ← exec c
      issueAll exec cs

/-- `apply_flows` run against a fallible executor: the buffer swap happens
before any call, so the final state is empty whether the run returns or
raises. -/
def apply_flows_run {E : Type} (exec : FlowKind × List Dict → Except E Unit)
    (cfg : DeferredConfig) (st : DeferredState) : DeferredState × Except E Unit :=
  let p := apply_flows cfg st
  (p.1, issueAll exec p.2)

/-- Embedding of `DeferredOVSBridge.__exit__(exc_type, exc_value, traceback)`:
with no active exception it calls `apply_flows`; with one it only logs.  The
result is the new state, the issued batched calls, and whether the exception is
suppressed (`__exit__` returns `None`, so it never is). -/
def deferred_exit {E : Type} (cfg : DeferredConfig) (st : DeferredState) :
    Option E → DeferredState × List (FlowKind × List Dict) × Bool
  | none =>
      let p := apply_flows cfg st
      (p.1, p.2, false)
  | some _ => (st, [], false)

/-- Whitespace recognizer for the model of Python `int(...)` parsing. -/
def isSpaceChar (c : Char) : Bool :=
  c == ' ' || c == '\t' || c == '\n' || c == '\r'

/-- Decimal digit recognizer. -/
def isDigitChar (c : Char) : Bool :=
  48 ≤ c.toNat && c.toNat ≤ 57

/-- Numeric value of a digit string. -/
def digitsVal (l : List Char) : Nat :=
  l.foldl (fun acc c => 10 * acc + (c.toNat - 48)) 0

/-- Strip characters satisfying `p` from both ends, modelling Python
`str.strip(chars)`. -/
def stripChars (p : Char → Bool) (l : List Char) : List Char :=
  ((l.dropWhile p).reverse.dropWhile p).reverse

/-- Model of Python `int(s)` on a string: optional surrounding whitespace, an
optional sign, then one or more decimal digits; `none` models the
`ValueError` raised on anything else (such as `'[]'`). -/
def pyIntChars (l : List Char) : Option Int :=
  match stripChars isSpaceChar l with
  | [] => none
  | c :: rest =>
      if c == '-' then
        if !rest.isEmpty && rest.all isDigitChar then some (-(digitsVal rest : Int))
        else none
      else if c == '+' then
        if !rest.isEmpty && rest.all isDigitChar then some (digitsVal rest)
        else none
      else if (c :: rest).all isDigitChar then some (digitsVal (c :: rest))
      else none

/-- Model of `int(result)` where `result` is a `db_get_val` result: `None`
raises `TypeError`, a string is parsed as an integer. -/
def pyIntOpt : Option String → Option Int
  | none => none
  | some s => pyIntChars s.toList

/-- Embedding of `_ofport_result_pending(result)`: pending exactly when
`int(result)` raises. -/
def ofport_result_pending (r : Option String) : Bool :=
  (pyIntOpt r).isNone

/-- Modelled from the spec: the wait of the external `retrying` library before
retry number `attempt` (`wait_exponential_multiplier=10`,
`wait_exponential_max=1000`): an initial wait of 10 ms, doubling each time, up
to a cap of 1000 ms per attempt. -/
def waitAfter (attempt : Nat) : Nat :=
  min (10 * 2 ^ attempt) 1000

/-- Cumulative backoff of `count` waits starting at retry number `attempt`. -/
def sumWaitsFrom (attempt : Nat) : Nat → Nat
  | 0 => 0
  | count + 1 => waitAfter attempt + sumWaitsFrom (attempt + 1) count

/-- Modelled from the spec: the retry loop of the external `retrying` library
as configured by `_ofport_retry` — poll, return the first non-pending result,
otherwise stop with a `RetryError` (the `none` result) once the cumulative
delay since the first attempt reaches `stopMaxDelay`, else wait and retry.
`fuel` is an upper bound on the number of attempts, consumed one per poll. -/
def retry_go (poll : Nat → Option String) (stopMaxDelay : Nat) :
    Nat → Nat → Nat → Option (Option String)
  | 0, _, _ => none
  | fuel + 1, attempt, elapsed =>
      let r := poll attempt
      if ofport_result_pending r then
        if stopMaxDelay ≤ elapsed then none
        else retry_go poll stopMaxDelay fuel (attempt + 1) (elapsed + waitAfter attempt)
      else some r

/-- Embedding of `_ofport_retry` applied to a poll function: the deadline is
`self.vsctl_timeout * 1000` milliseconds (`stop_max_delay`).  The fuel is one
more than the deadline, which the waits (each at least 10 ms) can never
exhaust before the deadline check stops the loop. -/
def ofport_retry (poll : Nat → Option String) (vsctl_timeout : Nat) :
    Option (Option String) :=
  retry_go poll (vsctl_timeout * 1000) (vsctl_timeout * 1000 + 1) 0 0

/-- Embedding of `OVSBridge.get_port_ofport`: the retried poll result, with a
`RetryError` caught and converted to `INVALID_OFPORT`. -/
def get_port_ofport (poll : Nat → Option String) (vsctl_timeout : Nat) :
    Option String :=
  match ofport_retry poll vsctl_timeout with
  | some r => r
  | none => some INVALID_OFPORT

/-- The `ovs-vsctl` argument vector built by `OVSBridge.add_port`. -/
def add_port_args (br_name port_name : String)
    (interface_options : List (String × String)) : List String :=
  ["--", "--may-exist", "add-port", br_name, port_name] ++
    (if interface_options.isEmpty then []
     else ["--", "set", "Interface", port_name] ++
       interface_options.map (fun kv => kv.1 ++ "=" ++ kv.2))

/-- The `ovs-vsctl` argument vector built by `OVSBridge.delete_port`. -/
def delete_port_args (br_name port_name : String) : List String :=
  ["--", "--if-exists", "del-port", br_name, port_name]

/-- Embedding of `OVSBridge.add_port`, parameterized by the ofport value that
`get_port_ofport` resolves for the new port.  Returns the `ovs-vsctl` commands
issued in order and the returned value. -/
def add_port (br_name port_name : String)
    (interface_options : List (String × String)) (ofport : Option String) :
    List (List String) × Option String :=
  if ofport == some INVALID_OFPORT then
    ([add_port_args br_name port_name interface_options,
      delete_port_args br_name port_name], ofport)
  else
    ([add_port_args br_name port_name interface_options], ofport)

/-- The data of a `VifPort` object (the back-reference to the owning bridge is
dropped). -/
structure VifPort where
  port_name : String
  ofport : String
  vif_id : String
  vif_mac : String
deriving DecidableEq, Repr

/-- One iteration of the `get_vif_ports` loop on a polled interface
`(name, external_ids, ofport)`: the produced `VifPort`, if any.  `xapi` models
`get_xapi_iface_id`. -/
def vif_port_entry (xapi : String → String) (e : String × Dict × String) :
    Option VifPort :=
  let ext := e.2.1
  if containsKey ext "iface-id" && containsKey ext "attached-mac" then
    some ⟨e.1, e.2.2, lookupD ext "iface-id", lookupD ext "attached-mac"⟩
  else if containsKey ext "xs-vif-uuid" && containsKey ext "attached-mac" then
    some ⟨e.1, e.2.2, xapi (lookupD ext "xs-vif-uuid"), lookupD ext "attached-mac"⟩
  else none

/-- Embedding of `OVSBridge.get_vif_ports`, over the polled per-interface
state (name, `external_ids` map, `ofport` string from `db_get_val`). -/
def get_vif_ports (xapi : String → String)
    (ports : List (String × Dict × String)) : List VifPort :=
  ports.filterMap (vif_port_entry xapi)

/-- A JSON cell of the `ovs-vsctl --format=json` output's `ofport` column:
either an integer or some non-integer value (such as `[]` or `["set", []]`). -/
inductive DbCell
  | int (n : Int)
  | other (s : String)
deriving DecidableEq, Repr

/-- One iteration of the `get_vif_port_set` loop on a row
`(external_ids, ofport)`: the contributed identifier, if any. -/
def vif_set_entry (xapi : String → String) (row : Dict × DbCell) :
    Option String :=
  match row.2 with
  | .other _ => none
  | .int n =>
      if n < 1 then none
      else if containsKey row.1 "attached-mac" then
        if containsKey row.1 "iface-id" then some (lookupD row.1 "iface-id")
        else if containsKey row.1 "xs-vif-uuid" then
          some (xapi (lookupD row.1 "xs-vif-uuid"))
        else none
      else none

/-- Embedding of `OVSBridge.get_vif_port_set`, over the decoded JSON rows;
the Python `set` is modelled as the list of added identifiers. -/
def get_vif_port_set (xapi : String → String) (rows : List (Dict × DbCell)) :
    List String :=
  rows.filterMap (vif_set_entry xapi)

/-- Splitter on a character-list separator with explicit fuel (one unit per
consumed character), modelling Python `str.split(sep)` for nonempty `sep`. -/
def splitChars (sep : List Char) : Nat → List Char → List Char → List (List Char)
  | 0, acc, _ => [acc.reverse]
  | _ + 1, acc, [] => [acc.reverse]
  | fuel + 1, acc, c :: rest =>
      if sep.isPrefixOf (c :: rest) then
        acc.reverse :: splitChars sep fuel [] ((c :: rest).drop sep.length)
      else
        splitChars sep fuel (c :: acc) rest

/-- Model of Python `s.split(sep)` for a nonempty separator. -/
def strSplitOn (s sep : String) : List String :=
  (splitChars sep.toList (s.toList.length + 1) [] s.toList).map String.mk

/-- Recognizer for the characters of Python's `strip("{}")` character set. -/
def isBraceChar (c : Char) : Bool :=
  c == Char.ofNat 123 || c == Char.ofNat 125

/-- Recognizer for the double-quote character of `strip('"')`. -/
def isQuoteChar (c : Char) : Bool :=
  c == Char.ofNat 34

/-- Model of Python `d[k] = v` on a dict: replace the value of an existing
binding in place, otherwise append the new binding. -/
def mapInsert : Dict → String → String → Dict
  | [], k, v => [(k, v)]
  | (k', v') :: rest, k, v =>
      if k' == k then (k, v) :: rest else (k', v') :: mapInsert rest k v

/-- Embedding of `OVSBridge.db_str_to_map(full_str)`: strip brace characters
from both ends, split on `", "`, skip entries without `'='`, split each entry
on `'='` and bind the part before the first `'='` to the part between the
first and second `'='` with surrounding double quotes stripped. -/
def db_str_to_map (full_str : String) : Dict :=
  let entries := strSplitOn (String.mk (stripChars isBraceChar full_str.toList)) ", "
  entries.foldl
    (fun ret e =>
      if !(e.toList.contains '=') then ret
      else
        let arr := strSplitOn e "="
        mapInsert ret (arr.getD 0 "")
          (String.mk (stripChars isQuoteChar (arr.getD 1 "").toList)))
    []

/-- Modelled from the claim's words, for comparison with `db_str_to_map`:
strip a SINGLE surrounding brace pair, split on `", "`, skip entries without
`'='`, split each entry on the FIRST `'='` and bind the key to everything
after that first `'='`, with surrounding double quotes stripped. -/
def db_str_to_map_claimed (full_str : String) : Dict :=
  let cs := full_str.toList
  let stripped :=
    if cs.head? == some (Char.ofNat 123) && cs.getLast? == some (Char.ofNat 125)
    then (cs.drop 1).dropLast else cs
  let entries := strSplitOn (String.mk stripped) ", "
  entries.foldl
    (fun ret e =>
      if !(e.toList.contains '=') then ret
      else
        let arr := strSplitOn e "="
        mapInsert ret (arr.getD 0 "")
          (String.mk (stripChars isQuoteChar
            (String.intercalate "=" (arr.drop 1)).toList)))
    []

/-- Modelled from the amended claim's words: strip ALL leading and trailing
brace characters, split on `", "`, skip entries without `'='`, and bind the
part before the first `'='` to the part between the first and second `'='`
(the second component of the `'='`-split), with surrounding double quotes
stripped. -/
def db_str_to_map_amended (full_str : String) : Dict :=
  let noLead := full_str.toList.dropWhile isBraceChar
  let core := (noLead.reverse.dropWhile isBraceChar).reverse
  (strSplitOn (String.mk core) ", ").foldl
    (fun ret e =>
      match strSplitOn e "=" with
      | [] => ret
      | [_] => ret
      | k :: v :: _ =>
          mapInsert ret k (String.mk (stripChars isQuoteChar v.toList)))
    []

/-- Value of key `k` in a `FlowRule` with a default, following the claim's
words about rendering defaults. -/
def fieldOrDefault (d : Dict) (k dflt : String) : String :=
  if containsKey d k then lookupD d k else dflt

/-- Modelled from the claim's words: the flow expression for kind `add` —
`hard_timeout=`, `idle_timeout=`, `priority=` first (defaults 0, 0, 1), then
the remaining fields as `key=value` tokens (`proto` bare), then `actions=`
last. -/
def spec_flow_expr_add (d : Dict) : String :=
  let rest := d.filter (fun p =>
    !(["hard_timeout", "idle_timeout", "priority", "actions"].contains p.1))
  String.intercalate ","
    (["hard_timeout=" ++ fieldOrDefault d "hard_timeout" "0",
      "idle_timeout=" ++ fieldOrDefault d "idle_timeout" "0",
      "priority=" ++ fieldOrDefault d "priority" "1"] ++
     rest.map flowToken ++ ["actions=" ++ lookupD d "actions"])

/-- Modelled from the claim's words: the flow expression for kinds `mod` and
`del` — only the remaining fields, with `actions=` appended last when an
`actions` field is present. -/
def spec_flow_expr_mod_del (d : Dict) : String :=
  let rest := d.filter (fun p => !(p.1 == "actions"))
  String.intercalate ","
    (rest.map flowToken ++
     (if containsKey d "actions" then ["actions=" ++ lookupD d "actions"] else []))

/-! ### Association-list lemmas -/

theorem containsKey_eq_isSome_find (d : Dict) (k : String) :
    containsKey d k = (d.find? (fun p => p.1 == k)).isSome := by
  induction d with
  | nil => rfl
  | cons p rest ih =>
      by_cases h : p.1 = k
      · simp [containsKey, List.find?, h]
      · have hb : (p.1 == k) = false := by simpa using h
        simp [containsKey, List.find?, hb] at ih ⊢
        simpa [containsKey] using ih

theorem dictPop_fst_eq (k : String) (d : Dict) :
    (dictPop k d).1 = Option.map Prod.snd (d.find? (fun p => p.1 == k)) := by
  induction d with
  | nil => rfl
  | cons p rest ih =>
      by_cases h : p.1 = k
      · simp [dictPop, List.find?, h]
      · have hb : (p.1 == k) = false := by simpa using h
        simp [dictPop, List.find?, hb, ih]

theorem dictPop_fst_of_contains {d : Dict} {k : String}
    (h : containsKey d k = true) : (dictPop k d).1 = some (lookupD d k) := by
  rw [containsKey_eq_isSome_find] at h
  rcases hf : d.find? (fun p => p.1 == k) with _ | p
  · rw [hf] at h; simp at h
  · rw [dictPop_fst_eq, hf, lookupD, hf]; rfl

theorem dictPopD_fst (k dflt : String) (d : Dict) :
    (dictPopD k dflt d).1 = fieldOrDefault d k dflt := by
  rw [dictPopD, fieldOrDefault, containsKey_eq_isSome_find]
  rcases hf : d.find? (fun p => p.1 == k) with _ | p
  · have : (dictPop k d).1 = none := by rw [dictPop_fst_eq, hf]; rfl
    rcases hp : dictPop k d with ⟨v?, d'⟩
    rw [hp] at this; subst this; simp [hf]
  · have : (dictPop k d).1 = some p.2 := by rw [dictPop_fst_eq, hf]; rfl
    rcases hp : dictPop k d with ⟨v?, d'⟩
    rw [hp] at this; subst this
    simp [lookupD, hf]

theorem dictPopD_snd (k dflt : String) (d : Dict) :
    (dictPopD k dflt d).2 = (dictPop k d).2 := by
  rw [dictPopD]
  rcases hp : dictPop k d with ⟨v?, d'⟩
  cases v? <;> rfl

theorem containsKey_dictPop_ne {k k' : String} (h : k' ≠ k) (d : Dict) :
    containsKey (dictPop k d).2 k' = containsKey d k' := by
  induction d with
  | nil => rfl
  | cons p rest ih =>
      by_cases hp : p.1 = k
      · have hb : (p.1 == k) = true := by simpa using hp
        have hb' : (p.1 == k') = false := by
          simp only [beq_eq_false_iff_ne, ne_eq]
          intro hc; exact h (by rw [← hc, hp])
        simp [dictPop, hb, containsKey, hb']
      · have hb : (p.1 == k) = false := by simpa using hp
        simp [dictPop, hb, containsKey] at ih ⊢
        rw [ih]

theorem lookupD_dictPop_ne {k k' : String} (h : k' ≠ k) (d : Dict) :
    lookupD (dictPop k d).2 k' = lookupD d k' := by
  induction d with
  | nil => rfl
  | cons p rest ih =>
      by_cases hp : p.1 = k
      · have hb : (p.1 == k) = true := by simpa using hp
        have hb' : (p.1 == k') = false := by
          simp only [beq_eq_false_iff_ne, ne_eq]
          intro hc; exact h (by rw [← hc, hp])
        simp [dictPop, hb, lookupD, List.find?, hb']
      · have hb : (p.1 == k) = false := by simpa using hp
        by_cases hp' : p.1 = k'
        · have hb' : (p.1 == k') = true := by simpa using hp'
          simp [dictPop, hb, lookupD, List.find?, hb']
        · have hb' : (p.1 == k') = false := by simpa using hp'
          simp [dictPop, hb, lookupD, List.find?, hb'] at ih ⊢
          exact ih

theorem dictPop_snd_of_nodup {d : Dict} {k : String}
    (h : (dictKeys d).Nodup) :
    (dictPop k d).2 = d.filter (fun p => !(p.1 == k)) := by
  induction d with
  | nil => rfl
  | cons p rest ih =>
      rw [dictKeys, List.map_cons, List.nodup_cons] at h
      by_cases hp : p.1 = k
      · have hb : (p.1 == k) = true := by simpa using hp
        have hrest : rest.filter (fun q => !(q.1 == k)) = rest := by
          apply List.filter_eq_self.mpr
          intro q hq
          have : q.1 ≠ k := by
            intro hc
            have hpq : p.1 = q.1 := by rw [hp, hc]
            exact h.1 (by rw [hpq]; exact List.mem_map_of_mem Prod.fst hq)
          simpa using this
        simp [dictPop, hb, List.filter_cons, hrest]
      · have hb : (p.1 == k) = false := by simpa using hp
        simp [dictPop, hb, List.filter_cons, ih h.2]

theorem nodup_keys_filter {d : Dict} (q : String × String → Bool)
    (h : (dictKeys d).Nodup) : (dictKeys (d.filter q)).Nodup :=
  List.Nodup.sublist ((List.filter_sublist (p := q) d).map Prod.fst) h

theorem containsKey_filter {d : Dict} {q : String × String → Bool} {k : String}
    (hq : ∀ p : String × String, p.1 = k → q p = true) :
    containsKey (d.filter q) k = containsKey d k := by
  induction d with
  | nil => rfl
  | cons p rest ih =>
      by_cases hp : p.1 = k
      · simp [List.filter_cons, hq p hp, containsKey, hp]
      · have hb : (p.1 == k) = false := by simpa using hp
        cases hqp : q p
        · simp [List.filter_cons, hqp, containsKey, hb] at ih ⊢
          exact ih
        · simp [List.filter_cons, hqp, containsKey, hb] at ih ⊢
          exact ih

theorem containsKey_filter_none {d : Dict} {q : String × String → Bool}
    {k : String} (hq : ∀ p : String × String, p.1 = k → q p = false) :
    containsKey (d.filter q) k = false := by
  induction d with
  | nil => rfl
  | cons p rest ih =>
      by_cases hp : p.1 = k
      · simp [List.filter_cons, hq p hp]
        exact ih
      · have hb : (p.1 == k) = false := by simpa using hp
        cases hqp : q p
        · simp [List.filter_cons, hqp]; exact ih
        · simp [List.filter_cons, hqp, containsKey, hb]
          simpa [containsKey] using ih

theorem lookupD_filter {d : Dict} {q : String × String → Bool} {k : String}
    (hq : ∀ p : String × String, p.1 = k → q p = true) :
    lookupD (d.filter q) k = lookupD d k := by
  induction d with
  | nil => rfl
  | cons p rest ih =>
      by_cases hp : p.1 = k
      · have hb : (p.1 == k) = true := by simpa using hp
        simp [List.filter_cons, hq p hp, lookupD, List.find?, hb]
      · have hb : (p.1 == k) = false := by simpa using hp
        cases hqp : q p
        · simp [List.filter_cons, hqp, lookupD, List.find?, hb] at ih ⊢
          exact ih
        · simp [List.filter_cons, hqp, lookupD, List.find?, hb] at ih ⊢
          exact ih

/-! ### Characterization of `build_flow_expr_str` -/

theorem fieldOrDefault_filter {d : Dict} {q : String × String → Bool}
    {k : String} (hq : ∀ p : String × String, p.1 = k → q p = true)
    (dflt : String) :
    fieldOrDefault (d.filter q) k dflt = fieldOrDefault d k dflt := by
  rw [fieldOrDefault, fieldOrDefault, containsKey_filter hq, lookupD_filter hq]

theorem build_add_ok {d : Dict} {e : String} {d' : Dict}
    (hnd : (dictKeys d).Nodup)
    (h : build_flow_expr_str d "add" = .ok (e, d')) :
    containsKey d "actions" = true ∧
    d' = (((d.filter (fun p => !(p.1 == "hard_timeout"))).filter
          (fun p => !(p.1 == "idle_timeout"))).filter
          (fun p => !(p.1 == "priority"))).filter (fun p => !(p.1 == "actions")) ∧
    e = String.intercalate ","
          (["hard_timeout=" ++ fieldOrDefault d "hard_timeout" "0",
            "idle_timeout=" ++ fieldOrDefault d "idle_timeout" "0",
            "priority=" ++ fieldOrDefault d "priority" "1"] ++
           d'.map flowToken ++ ["actions=" ++ lookupD d "actions"]) := by
  have e1 : (dictPopD "hard_timeout" "0" d).2
      = d.filter (fun p => !(p.1 == "hard_timeout")) := by
    rw [dictPopD_snd, dictPop_snd_of_nodup hnd]
  have nd1 : (dictKeys ((dictPopD "hard_timeout" "0" d).2)).Nodup := by
    rw [e1]; exact nodup_keys_filter _ hnd
  have e2 : (dictPopD "idle_timeout" "0" (dictPopD "hard_timeout" "0" d).2).2
      = ((dictPopD "hard_timeout" "0" d).2).filter
          (fun p => !(p.1 == "idle_timeout")) := by
    rw [dictPopD_snd, dictPop_snd_of_nodup nd1]
  have nd2 : (dictKeys ((dictPopD "idle_timeout" "0"
      (dictPopD "hard_timeout" "0" d).2).2)).Nodup := by
    rw [e2]; exact nodup_keys_filter _ nd1
  have e3 : (dictPopD "priority" "1" (dictPopD "idle_timeout" "0"
        (dictPopD "hard_timeout" "0" d).2).2).2
      = ((dictPopD "idle_timeout" "0" (dictPopD "hard_timeout" "0" d).2).2).filter
          (fun p => !(p.1 == "priority")) := by
    rw [dictPopD_snd, dictPop_snd_of_nodup nd2]
  have nd3 : (dictKeys ((dictPopD "priority" "1" (dictPopD "idle_timeout" "0"
      (dictPopD "hard_timeout" "0" d).2).2).2)).Nodup := by
    rw [e3]; exact nodup_keys_filter _ nd2
  have hca : containsKey (dictPopD "priority" "1" (dictPopD "idle_timeout" "0"
        (dictPopD "hard_timeout" "0" d).2).2).2 "actions"
      = containsKey d "actions" := by
    rw [e3, containsKey_filter (fun p hp => by rw [hp]; decide),
        e2, containsKey_filter (fun p hp => by rw [hp]; decide),
        e1, containsKey_filter (fun p hp => by rw [hp]; decide)]
  have hv1 : (dictPopD "hard_timeout" "0" d).1
      = fieldOrDefault d "hard_timeout" "0" := dictPopD_fst _ _ _
  have hv2 : (dictPopD "idle_timeout" "0" (dictPopD "hard_timeout" "0" d).2).1
      = fieldOrDefault d "idle_timeout" "0" := by
    rw [dictPopD_fst, e1, fieldOrDefault_filter (fun p hp => by rw [hp]; decide)]
  have hv3 : (dictPopD "priority" "1" (dictPopD "idle_timeout" "0"
        (dictPopD "hard_timeout" "0" d).2).2).1
      = fieldOrDefault d "priority" "1" := by
    rw [dictPopD_fst, e2, fieldOrDefault_filter (fun p hp => by rw [hp]; decide),
        e1, fieldOrDefault_filter (fun p hp => by rw [hp]; decide)]
  rw [build_flow_expr_str] at h
  rw [if_pos (show (("add" : String) == "add") = true by decide)] at h
  simp only [] at h
  cases hc : containsKey (dictPopD "priority" "1" (dictPopD "idle_timeout" "0"
      (dictPopD "hard_timeout" "0" d).2).2).2 "actions" with
  | false => rw [hc] at h; simp at h
  | true =>
      rw [hc] at h
      rw [if_neg (show ¬((!true) = true) by decide)] at h
      have hla : lookupD (dictPopD "priority" "1" (dictPopD "idle_timeout" "0"
            (dictPopD "hard_timeout" "0" d).2).2).2 "actions"
          = lookupD d "actions" := by
        rw [e3, lookupD_filter (fun p hp => by rw [hp]; decide),
            e2, lookupD_filter (fun p hp => by rw [hp]; decide),
            e1, lookupD_filter (fun p hp => by rw [hp]; decide)]
      rw [dictPop_fst_of_contains hc] at h
      rw [hla] at h
      rw [dictPop_snd_of_nodup nd3] at h
      rw [hv3, hv2, hv1] at h
      rw [e3, e2, e1] at h
      simp only [Except.ok.injEq, Prod.mk.injEq] at h
      obtain ⟨he, hd⟩ := h
      refine ⟨by rw [← hca, hc], hd.symm, ?_⟩
      rw [← he, ← hd]

theorem build_mod_ok {d : Dict} {e : String} {d' : Dict}
    (hnd : (dictKeys d).Nodup)
    (h : build_flow_expr_str d "mod" = .ok (e, d')) :
    containsKey d "priority" = false ∧ containsKey d "actions" = true ∧
    d' = d.filter (fun p => !(p.1 == "actions")) ∧
    e = String.intercalate ","
          (d'.map flowToken ++ ["actions=" ++ lookupD d "actions"]) := by
  rw [build_flow_expr_str] at h
  rw [if_neg (show ¬((("mod" : String) == "add") = true) by decide)] at h
  cases hp : containsKey d "priority" with
  | true => rw [hp] at h; simp at h
  | false =>
      rw [hp] at h
      rw [if_neg (show ¬((false : Bool) = true) by decide)] at h
      rw [if_pos (show (("mod" : String) != "del") = true by decide)] at h
      cases hc : containsKey d "actions" with
      | false => rw [hc] at h; simp at h
      | true =>
          rw [hc] at h
          rw [if_neg (show ¬((!true) = true) by decide)] at h
          simp only [] at h
          rw [dictPop_fst_of_contains hc, dictPop_snd_of_nodup hnd] at h
          simp only [Except.ok.injEq, Prod.mk.injEq] at h
          obtain ⟨he, hd⟩ := h
          refine ⟨rfl, rfl, hd.symm, ?_⟩
          rw [← he, ← hd]

theorem build_del_ok {d : Dict} {e : String} {d' : Dict}
    (h : build_flow_expr_str d "del" = .ok (e, d')) :
    containsKey d "priority" = false ∧ d' = d ∧
    e = String.intercalate "," (d.map flowToken) := by
  rw [build_flow_expr_str] at h
  rw [if_neg (show ¬((("del" : String) == "add") = true) by decide)] at h
  cases hp : containsKey d "priority" with
  | true => rw [hp] at h; simp at h
  | false =>
      rw [hp] at h
      rw [if_neg (show ¬((false : Bool) = true) by decide)] at h
      rw [if_neg (show ¬((("del" : String) != "del") = true) by decide)] at h
      simp only [Except.ok.injEq, Prod.mk.injEq] at h
      obtain ⟨he, hd⟩ := h
      exact ⟨rfl, hd.symm, by rw [← he]⟩

theorem build_priority_error {d : Dict} {cmd : String}
    (hc : cmd = "mod" ∨ cmd = "del") (h : containsKey d "priority" = true) :
    build_flow_expr_str d cmd
      = .error "Cannot match priority on flow deletion or modification" := by
  rcases hc with hc | hc <;> subst hc <;>
    · rw [build_flow_expr_str]
      rw [if_neg (by decide)]
      rw [h]
      rw [if_pos rfl]

theorem build_missing_actions_error {d : Dict} {cmd : String}
    (hc : cmd = "add" ∨ cmd = "mod") (h : containsKey d "actions" = false) :
    ∃ m, build_flow_expr_str d cmd = .error m := by
  rcases hc with hc | hc <;> subst hc
  · have hca : containsKey (dictPopD "priority" "1" (dictPopD "idle_timeout" "0"
          (dictPopD "hard_timeout" "0" d).2).2).2 "actions" = false := by
      rw [dictPopD_snd, containsKey_dictPop_ne (by decide),
          dictPopD_snd, containsKey_dictPop_ne (by decide),
          dictPopD_snd, containsKey_dictPop_ne (by decide), h]
    refine ⟨"Must specify one or more actions on flow addition or modification", ?_⟩
    rw [build_flow_expr_str]
    rw [if_pos (show (("add" : String) == "add") = true by decide)]
    simp only []
    rw [hca]
    rw [if_pos (by decide)]
  · cases hp : containsKey d "priority" with
    | true => exact ⟨_, build_priority_error (Or.inl rfl) hp⟩
    | false =>
        refine ⟨"Must specify one or more actions on flow addition or modification", ?_⟩
        rw [build_flow_expr_str]
        rw [if_neg (show ¬((("mod" : String) == "add") = true) by decide), hp]
        rw [if_neg (show ¬((false : Bool) = true) by decide)]
        rw [if_pos (show (("mod" : String) != "del") = true by decide), h]
        rw [if_pos (by decide)]

/-! ### Lemmas about `do_action_flows` -/

theorem except_bind_ok {α β : Type} {x : Except String α} {f : α → Except String β}
    {v : β} (h : (x >>= f) = .ok v) : ∃ w, x = .ok w ∧ f w = .ok v := by
  cases x with
  | error m => exact absurd h (by simp [Bind.bind, Except.bind])
  | ok w => exact ⟨w, rfl, h⟩

theorem mapM_except_error {α β : Type} (f : α → Except String β) {l : List α}
    {a : α} (ha : a ∈ l) {m : String} (h : f a = .error m) :
    ∃ m', l.mapM f = .error m' := by
  induction l with
  | nil => cases ha
  | cons b l ih =>
      rcases List.mem_cons.mp ha with hab | hal
      · subst hab
        exact ⟨m, by rw [List.mapM_cons, h]; rfl⟩
      · cases hfb : f b with
        | error m'' => exact ⟨m'', by rw [List.mapM_cons, hfb]; rfl⟩
        | ok w =>
            obtain ⟨m', hm⟩ := ih hal
            clear h
            refine ⟨m', ?_⟩
            rw [List.mapM_cons, hfb]
            show (l.mapM f >>= fun xs => pure (w :: xs)) = .error m'
            rw [hm]; rfl

theorem mapM_except_ok_mem {α β : Type} (f : α → Except String β) :
    ∀ {l : List α} {rs : List β}, l.mapM f = .ok rs →
      ∀ r ∈ rs, ∃ a ∈ l, f a = .ok r := by
  intro l
  induction l with
  | nil =>
      intro rs h r hr
      rw [List.mapM_nil] at h
      cases h
      cases hr
  | cons b l ih =>
      intro rs h r hr
      rw [List.mapM_cons] at h
      obtain ⟨x, hfb, h2⟩ := except_bind_ok h
      obtain ⟨xs, hxs, h3⟩ := except_bind_ok h2
      cases h3
      rcases List.mem_cons.mp hr with hrx | hrxs
      · subst hrx; exact ⟨b, List.mem_cons_self b l, hfb⟩
      · obtain ⟨a, hal, hfa⟩ := ih hxs r hrxs
        exact ⟨a, List.mem_cons_of_mem b hal, hfa⟩

theorem do_action_flows_error {action : String} {l : List Dict} {d : Dict}
    (hd : d ∈ l) {m : String} (h : build_flow_expr_str d action = .error m) :
    ∃ m', do_action_flows action l = .error m' := by
  obtain ⟨m', hm⟩ :=
    mapM_except_error (fun kw => build_flow_expr_str kw action) hd h
  exact ⟨m', by rw [do_action_flows, hm]; rfl⟩

theorem do_action_flows_ok_mem {action : String} {l : List Dict}
    {res : OfctlCommand × List Dict} (h : do_action_flows action l = .ok res) :
    ∀ d' ∈ res.2, ∃ d ∈ l, ∃ e, build_flow_expr_str d action = .ok (e, d') := by
  intro d' hd'
  rw [do_action_flows] at h
  obtain ⟨rendered, hmap, h2⟩ := except_bind_ok h
  cases h2
  obtain ⟨pr, hpr, hsnd⟩ := List.mem_map.mp hd'
  obtain ⟨d, hdl, hfd⟩ :=
    mapM_except_ok_mem (fun kw => build_flow_expr_str kw action) hmap pr hpr
  exact ⟨d, hdl, pr.1, by rw [hfd, ← hsnd]⟩

/-! ### Lemmas about the deferred-flow batching -/

theorem insertStable_partition (w : FlowOp → Nat) (x : FlowOp) :
    ∀ (P Q : List FlowOp), (∀ p ∈ P, w p ≤ w x) → (∀ q ∈ Q, w x < w q) →
    insertStable w x (P ++ Q) = P ++ x :: Q := by
  intro P
  induction P with
  | nil =>
      intro Q _ hQ
      cases Q with
      | nil => rfl
      | cons q Q' =>
          simp only [List.nil_append, insertStable]
          rw [if_neg (not_le.mpr (hQ q (List.mem_cons_self q Q')))]
  | cons p P' ih =>
      intro Q hP hQ
      simp only [List.cons_append, insertStable, List.append_eq]
      rw [if_pos (hP p (List.mem_cons_self p P'))]
      rw [ih Q (fun a ha => hP a (List.mem_cons_of_mem p ha)) hQ]

theorem foldl_insert_tri (w : FlowOp → Nat) :
    ∀ (l A B C : List FlowOp),
    (∀ a ∈ A, w a = 0) → (∀ b ∈ B, w b = 1) → (∀ c ∈ C, w c = 2) →
    (∀ x ∈ l, w x ≤ 2) →
    l.foldl (fun acc x => insertStable w x acc) (A ++ B ++ C) =
      (A ++ l.filter (fun x => w x == 0)) ++
      (B ++ l.filter (fun x => w x == 1)) ++
      (C ++ l.filter (fun x => w x == 2)) := by
  intro l
  induction l with
  | nil => intro A B C _ _ _ _; simp
  | cons x l ih =>
      intro A B C hA hB hC hl
      have hx2 : w x ≤ 2 := hl x (List.mem_cons_self x l)
      have hl' : ∀ y ∈ l, w y ≤ 2 := fun y hy => hl y (List.mem_cons_of_mem x hy)
      rw [List.foldl_cons]
      have hx : w x = 0 ∨ w x = 1 ∨ w x = 2 := by omega
      rcases hx with hx | hx | hx
      · have hins : insertStable w x (A ++ B ++ C) = (A ++ [x]) ++ B ++ C := by
          rw [List.append_assoc,
              insertStable_partition w x A (B ++ C)
                (fun a ha => by rw [hA a ha, hx])
                (fun q hq => by
                  rcases List.mem_append.mp hq with h | h
                  · rw [hB q h, hx]; omega
                  · rw [hC q h, hx]; omega)]
          simp
        rw [hins, ih (A ++ [x]) B C
            (fun a ha => by
              rcases List.mem_append.mp ha with h | h
              · exact hA a h
              · rw [List.mem_singleton.mp h]; exact hx) hB hC hl']
        have hf0 : (x :: l).filter (fun y => w y == 0)
            = x :: l.filter (fun y => w y == 0) := by
          rw [List.filter_cons_of_pos (by simp [hx])]
        have hf1 : (x :: l).filter (fun y => w y == 1)
            = l.filter (fun y => w y == 1) := by
          rw [List.filter_cons_of_neg (by simp [hx])]
        have hf2 : (x :: l).filter (fun y => w y == 2)
            = l.filter (fun y => w y == 2) := by
          rw [List.filter_cons_of_neg (by simp [hx])]
        rw [hf0, hf1, hf2]
        simp [List.append_assoc]
      · have hins : insertStable w x (A ++ B ++ C) = A ++ (B ++ [x]) ++ C := by
          rw [List.append_assoc, ← List.append_assoc,
              insertStable_partition w x (A ++ B) C
                (fun a ha => by
                  rcases List.mem_append.mp ha with h | h
                  · rw [hA a h, hx]; omega
                  · rw [hB a h, hx])
                (fun q hq => by rw [hC q hq, hx]; omega)]
          simp
        rw [hins, ih A (B ++ [x]) C hA
            (fun b hb => by
              rcases List.mem_append.mp hb with h | h
              · exact hB b h
              · rw [List.mem_singleton.mp h]; exact hx) hC hl']
        have hf0 : (x :: l).filter (fun y => w y == 0)
            = l.filter (fun y => w y == 0) := by
          rw [List.filter_cons_of_neg (by simp [hx])]
        have hf1 : (x :: l).filter (fun y => w y == 1)
            = x :: l.filter (fun y => w y == 1) := by
          rw [List.filter_cons_of_pos (by simp [hx])]
        have hf2 : (x :: l).filter (fun y => w y == 2)
            = l.filter (fun y => w y == 2) := by
          rw [List.filter_cons_of_neg (by simp [hx])]
        rw [hf0, hf1, hf2]
        simp [List.append_assoc]
      · have hins : insertStable w x (A ++ B ++ C) = A ++ B ++ (C ++ [x]) := by
          have : A ++ B ++ C = (A ++ B ++ C) ++ [] := by simp
          rw [this,
              insertStable_partition w x (A ++ B ++ C) []
                (fun a ha => by
                  rcases List.mem_append.mp ha with h | h
                  · rcases List.mem_append.mp h with h' | h'
                    · rw [hA a h', hx]; omega
                    · rw [hB a h', hx]; omega
                  · rw [hC a h, hx])
                (fun q hq => by cases hq)]
          simp
        rw [hins, ih A B (C ++ [x]) hA hB
            (fun c hc => by
              rcases List.mem_append.mp hc with h | h
              · exact hC c h
              · rw [List.mem_singleton.mp h]; exact hx) hl']
        have hf0 : (x :: l).filter (fun y => w y == 0)
            = l.filter (fun y => w y == 0) := by
          rw [List.filter_cons_of_neg (by simp [hx])]
        have hf1 : (x :: l).filter (fun y => w y == 1)
            = l.filter (fun y => w y == 1) := by
          rw [List.filter_cons_of_neg (by simp [hx])]
        have hf2 : (x :: l).filter (fun y => w y == 2)
            = x :: l.filter (fun y => w y == 2) := by
          rw [List.filter_cons_of_pos (by simp [hx])]
        rw [hf0, hf1, hf2]
        simp [List.append_assoc]

theorem stableSort_tri (w : FlowOp → Nat) (l : List FlowOp)
    (hl : ∀ x ∈ l, w x ≤ 2) :
    stableSort w l =
      l.filter (fun x => w x == 0) ++ l.filter (fun x => w x == 1) ++
      l.filter (fun x => w x == 2) := by
  have h := foldl_insert_tri w l [] [] []
    (by intro a ha; cases ha) (by intro a ha; cases ha) (by intro a ha; cases ha) hl
  simpa [stableSort] using h

theorem groupGo_uniform {k : FlowKind} :
    ∀ (L : List FlowOp), (∀ p ∈ L, p.1 = k) → ∀ (acc : List Dict) (rest : List FlowOp),
    groupGo k acc (L ++ rest) = groupGo k ((L.map Prod.snd).reverse ++ acc) rest := by
  intro L
  induction L with
  | nil => intro _ acc rest; simp
  | cons p L' ih =>
      intro hL acc rest
      obtain ⟨k', r⟩ := p
      have hk : k' = k := hL (k', r) (List.mem_cons_self _ _)
      simp only [List.cons_append, groupGo, List.append_eq]
      rw [if_pos hk]
      rw [ih (fun q hq => hL q (List.mem_cons_of_mem _ hq)) (r :: acc) rest]
      simp [List.append_assoc]

theorem groupByKind_block {k : FlowKind} (L : List FlowOp) (hne : L ≠ [])
    (hL : ∀ p ∈ L, p.1 = k) (rest : List FlowOp)
    (hhead : ∀ p, rest.head? = some p → p.1 ≠ k) :
    groupByKind (L ++ rest) = (k, L.map Prod.snd) :: groupByKind rest := by
  cases L with
  | nil => exact absurd rfl hne
  | cons p L' =>
      obtain ⟨k₀, r⟩ := p
      have hk : k₀ = k := hL (k₀, r) (List.mem_cons_self _ _)
      rw [hk]
      simp only [List.cons_append, groupByKind]
      rw [groupGo_uniform L' (fun q hq => hL q (List.mem_cons_of_mem _ hq)) [r] rest]
      cases rest with
      | nil =>
          simp [groupGo, groupByKind]
      | cons q rest' =>
          obtain ⟨k₁, r₁⟩ := q
          have hk₁ : k₁ ≠ k := hhead (k₁, r₁) rfl
          simp only [groupGo]
          rw [if_neg hk₁]
          simp [groupByKind]

theorem head_kind_ne {rest : List FlowOp} {k k' : FlowKind}
    (h : ∀ p ∈ rest, p.1 = k') (hne : k' ≠ k) :
    ∀ p, rest.head? = some p → p.1 ≠ k := by
  intro p hp
  cases rest with
  | nil => cases hp
  | cons q rest' =>
      simp only [List.head?] at hp
      cases hp
      rw [h p (List.mem_cons_self p rest')]
      exact hne

/-- One maximal run in the grouped output: nothing for an empty class, one
batched call otherwise. -/
def groupOpt (k : FlowKind) (L : List FlowOp) : List (FlowKind × List Dict) :=
  if L.isEmpty then [] else [(k, L.map Prod.snd)]

theorem groupByKind_tri (A B C : List FlowOp)
    (hA : ∀ p ∈ A, p.1 = FlowKind.add) (hB : ∀ p ∈ B, p.1 = FlowKind.mod)
    (hC : ∀ p ∈ C, p.1 = FlowKind.del) :
    groupByKind (A ++ B ++ C) =
      groupOpt FlowKind.add A ++ groupOpt FlowKind.mod B ++
      groupOpt FlowKind.del C := by
  have hCblock : C ≠ [] → groupByKind C = groupOpt FlowKind.del C := by
    intro hCne
    have := groupByKind_block C hCne hC [] (by intro p hp; cases hp)
    rw [List.append_nil] at this
    rw [this]
    simp [groupByKind, groupOpt, List.isEmpty_iff, hCne]
  have hBCblock : groupByKind (B ++ C)
      = groupOpt FlowKind.mod B ++ groupOpt FlowKind.del C := by
    cases hBe : B with
    | nil =>
        cases hCe : C with
        | nil => simp [groupByKind, groupOpt]
        | cons c C' =>
            rw [← hCe]
            simp only [List.nil_append]
            rw [hCblock (by rw [hCe]; simp)]
            simp [groupOpt]
    | cons b B' =>
        rw [← hBe]
        rw [groupByKind_block B (by rw [hBe]; simp) hB C
            (head_kind_ne hC (by decide))]
        cases hCe : C with
        | nil => simp [groupByKind, groupOpt, hBe]
        | cons c C' =>
            rw [← hCe, hCblock (by rw [hCe]; simp)]
            simp [groupOpt, hBe]
  cases hAe : A with
  | nil => simpa [groupOpt] using hBCblock
  | cons a A' =>
      rw [← hAe, List.append_assoc]
      rw [groupByKind_block A (by rw [hAe]; simp) hA (B ++ C)
          (by
            intro p hp
            rcases hBe : B with _ | ⟨b, B'⟩
            · rw [hBe] at hp
              simp only [List.nil_append] at hp
              exact head_kind_ne hC (by decide) p hp
            · rw [hBe] at hp
              simp only [List.cons_append, List.head?] at hp
              cases hp
              rw [hB p (by rw [hBe]; exact List.mem_cons_self p B')]
              decide)]
      rw [hBCblock]
      simp [groupOpt, hAe, List.append_assoc]

theorem weight_default_le (k : FlowKind) :
    weight_of [FlowKind.add, FlowKind.mod, FlowKind.del] k ≤ 2 := by
  cases k <;> decide

/-- The central characterization of `apply_flows` under the default ordering
policy: the issued batched calls are the `add` operations, then the `mod`
operations, then the `del` operations, each class in submission order, with
one call per nonempty class. -/
theorem apply_flows_commands_default (buf : List FlowOp) :
    apply_flows_commands defaultConfig buf =
      groupOpt FlowKind.add (buf.filter (fun p => p.1 == FlowKind.add)) ++
      groupOpt FlowKind.mod (buf.filter (fun p => p.1 == FlowKind.mod)) ++
      groupOpt FlowKind.del (buf.filter (fun p => p.1 == FlowKind.del)) := by
  cases hbe : buf with
  | nil => simp [apply_flows_commands, groupOpt]
  | cons x buf' =>
      rw [← hbe]
      rw [apply_flows_commands]
      rw [if_neg (by rw [hbe]; simp)]
      rw [show defaultConfig.full_ordered = false from rfl]
      rw [if_neg (by simp)]
      rw [show defaultConfig.order = [FlowKind.add, FlowKind.mod, FlowKind.del]
            from rfl]
      rw [stableSort_tri
            (fun af => weight_of [FlowKind.add, FlowKind.mod, FlowKind.del] af.1)
            buf (fun x _ => weight_default_le x.1)]
      have hc0 : buf.filter
            (fun x => weight_of [FlowKind.add, FlowKind.mod, FlowKind.del] x.1 == 0)
          = buf.filter (fun p => p.1 == FlowKind.add) := by
        apply List.filter_congr
        intro p _
        obtain ⟨k, dd⟩ := p
        cases k <;> rfl
      have hc1 : buf.filter
            (fun x => weight_of [FlowKind.add, FlowKind.mod, FlowKind.del] x.1 == 1)
          = buf.filter (fun p => p.1 == FlowKind.mod) := by
        apply List.filter_congr
        intro p _
        obtain ⟨k, dd⟩ := p
        cases k <;> rfl
      have hc2 : buf.filter
            (fun x => weight_of [FlowKind.add, FlowKind.mod, FlowKind.del] x.1 == 2)
          = buf.filter (fun p => p.1 == FlowKind.del) := by
        apply List.filter_congr
        intro p _
        obtain ⟨k, dd⟩ := p
        cases k <;> rfl
      rw [hc0, hc1, hc2]
      exact groupByKind_tri _ _ _
        (fun p hp => by simpa using (List.mem_filter.mp hp).2)
        (fun p hp => by simpa using (List.mem_filter.mp hp).2)
        (fun p hp => by simpa using (List.mem_filter.mp hp).2)

/-! ### Lemmas about the ofport retry loop -/

theorem waitAfter_ge (a : Nat) : 10 ≤ waitAfter a := by
  rw [waitAfter]
  have h1 : 1 ≤ 2 ^ a := Nat.one_le_two_pow
  have h2 : 10 * 1 ≤ 10 * 2 ^ a := Nat.mul_le_mul_left 10 h1
  exact le_min (by omega) (by omega)

theorem sumWaitsFrom_ge : ∀ (K attempt : Nat), 10 * K ≤ sumWaitsFrom attempt K := by
  intro K
  induction K with
  | zero => intro attempt; simp [sumWaitsFrom]
  | succ K ih =>
      intro attempt
      have h1 := waitAfter_ge attempt
      have h2 := ih (attempt + 1)
      rw [sumWaitsFrom]
      omega

theorem retry_go_never {poll : Nat → Option String}
    (h : ∀ i, ofport_result_pending (poll i) = true) (stopMax : Nat) :
    ∀ (fuel attempt elapsed : Nat),
    retry_go poll stopMax fuel attempt elapsed = none := by
  intro fuel
  induction fuel with
  | zero => intro attempt elapsed; rfl
  | succ f ih =>
      intro attempt elapsed
      simp only [retry_go, h attempt, if_true]
      split
      · rfl
      · exact ih (attempt + 1) (elapsed + waitAfter attempt)

theorem retry_go_resolve (poll : Nat → Option String) (stopMax : Nat) :
    ∀ (K fuel attempt elapsed : Nat),
    (∀ i, i < K → ofport_result_pending (poll (attempt + i)) = true) →
    ofport_result_pending (poll (attempt + K)) = false →
    elapsed + sumWaitsFrom attempt K ≤ stopMax →
    K < fuel →
    retry_go poll stopMax fuel attempt elapsed = some (poll (attempt + K)) := by
  intro K
  induction K with
  | zero =>
      intro fuel attempt elapsed _ hres _ hfuel
      obtain ⟨f, rfl⟩ : ∃ f, fuel = f + 1 := ⟨fuel - 1, by omega⟩
      rw [Nat.add_zero] at hres ⊢
      simp only [retry_go, hres]
      rfl
  | succ K ih =>
      intro fuel attempt elapsed hpend hres hdl hfuel
      obtain ⟨f, rfl⟩ : ∃ f, fuel = f + 1 := ⟨fuel - 1, by omega⟩
      have hp0 : ofport_result_pending (poll attempt) = true := by
        have := hpend 0 (by omega)
        rwa [Nat.add_zero] at this
      rw [sumWaitsFrom] at hdl
      have hw := waitAfter_ge attempt
      have hnostop : ¬ (stopMax ≤ elapsed) := by omega
      simp only [retry_go, hp0, if_true]
      rw [if_neg hnostop]
      have hstep := ih f (attempt + 1) (elapsed + waitAfter attempt)
        (fun i hi => by
          have := hpend (i + 1) (by omega)
          rwa [show attempt + (i + 1) = attempt + 1 + i by omega] at this)
        (by rwa [show attempt + 1 + K = attempt + (K + 1) by omega])
        (by omega)
        (by omega)
      rw [hstep, show attempt + 1 + K = attempt + (K + 1) by omega]

theorem get_port_ofport_resolve (poll : Nat → Option String) (K T : Nat)
    (hpend : ∀ i, i < K → ofport_result_pending (poll i) = true)
    (hres : ofport_result_pending (poll K) = false)
    (hdl : sumWaitsFrom 0 K ≤ T * 1000) :
    get_port_ofport poll T = poll K := by
  have hK : K < T * 1000 + 1 := by
    have := sumWaitsFrom_ge K 0
    omega
  rw [get_port_ofport, ofport_retry,
      retry_go_resolve poll (T * 1000) K (T * 1000 + 1) 0 0
        (fun i hi => by rw [Nat.zero_add]; exact hpend i hi)
        (by rwa [Nat.zero_add]) (by omega) hK]
  rw [Nat.zero_add]

theorem get_port_ofport_timeout (poll : Nat → Option String) (T : Nat)
    (h : ∀ i, ofport_result_pending (poll i) = true) :
    get_port_ofport poll T = some INVALID_OFPORT := by
  rw [get_port_ofport, ofport_retry, retry_go_never h]

/-! ### Lemmas about `get_vif_ports` and `get_vif_port_set` -/

theorem vif_set_entry_some_inv {xapi : String → String} {row : Dict × DbCell}
    {s : String} (h : vif_set_entry xapi row = some s) :
    (∃ n : Int, row.2 = DbCell.int n ∧ 1 ≤ n) ∧
    containsKey row.1 "attached-mac" = true ∧
    (containsKey row.1 "iface-id" = true ∨
      containsKey row.1 "xs-vif-uuid" = true) := by
  obtain ⟨ext, c⟩ := row
  cases c with
  | other str => simp [vif_set_entry] at h
  | int n =>
      simp only [vif_set_entry] at h
      by_cases h1 : n < 1
      · rw [if_pos h1] at h; cases h
      · rw [if_neg h1] at h
        cases hm : containsKey ext "attached-mac" with
        | false => rw [hm] at h; simp at h
        | true =>
            rw [hm] at h
            simp only [if_true] at h
            cases hi : containsKey ext "iface-id" with
            | true => exact ⟨⟨n, rfl, by omega⟩, rfl, Or.inl rfl⟩
            | false =>
                rw [hi] at h
                simp only [Bool.false_eq_true, if_false, ite_false] at h
                cases hx : containsKey ext "xs-vif-uuid" with
                | true => exact ⟨⟨n, rfl, by omega⟩, rfl, Or.inr rfl⟩
                | false => rw [hx] at h; simp at h

theorem vif_set_entry_nonpos {xapi : String → String} {ext : Dict} {c : DbCell}
    (h : ∀ n : Int, c = DbCell.int n → n < 1) :
    vif_set_entry xapi (ext, c) = none := by
  cases c with
  | other str => rfl
  | int n =>
      simp only [vif_set_entry]
      rw [if_pos (h n rfl)]

theorem get_vif_port_set_mem {xapi : String → String} {rows : List (Dict × DbCell)}
    {x : String} (hx : x ∈ get_vif_port_set xapi rows) :
    ∃ row ∈ rows, vif_set_entry xapi row = some x := by
  rw [get_vif_port_set] at hx
  exact List.mem_filterMap.mp hx

theorem get_vif_port_set_skip (xapi : String → String)
    (rows₁ rows₂ : List (Dict × DbCell)) (ext : Dict) (c : DbCell)
    (h : ∀ n : Int, c = DbCell.int n → n < 1) :
    get_vif_port_set xapi (rows₁ ++ (ext, c) :: rows₂)
      = get_vif_port_set xapi (rows₁ ++ rows₂) := by
  simp [get_vif_port_set, List.filterMap_append, List.filterMap_cons,
    vif_set_entry_nonpos h]

theorem vif_port_entry_some_inv {xapi : String → String}
    {e : String × Dict × String} {v : VifPort}
    (h : vif_port_entry xapi e = some v) :
    containsKey e.2.1 "attached-mac" = true ∧
    (containsKey e.2.1 "iface-id" = true ∨
      containsKey e.2.1 "xs-vif-uuid" = true) ∧
    v.port_name = e.1 ∧ v.ofport = e.2.2 := by
  obtain ⟨name, ext, ofp⟩ := e
  simp only [vif_port_entry] at h
  cases hi : containsKey ext "iface-id" with
  | true =>
      cases hm : containsKey ext "attached-mac" with
      | false => rw [hi, hm] at h; simp at h
      | true =>
          rw [hi, hm] at h
          simp only [Bool.and_self, if_true] at h
          cases h
          exact ⟨rfl, Or.inl rfl, rfl, rfl⟩
  | false =>
      rw [hi] at h
      simp only [Bool.false_and, Bool.false_eq_true, if_false, ite_false] at h
      cases hx : containsKey ext "xs-vif-uuid" with
      | false => rw [hx] at h; simp at h
      | true =>
          cases hm : containsKey ext "attached-mac" with
          | false => rw [hx, hm] at h; simp at h
          | true =>
              rw [hx, hm] at h
              simp only [Bool.and_self, if_true] at h
              cases h
              exact ⟨rfl, Or.inr rfl, rfl, rfl⟩

theorem get_vif_ports_mem {xapi : String → String}
    {ports : List (String × Dict × String)} {v : VifPort}
    (hv : v ∈ get_vif_ports xapi ports) :
    ∃ e ∈ ports, vif_port_entry xapi e = some v := by
  rw [get_vif_ports] at hv
  exact List.mem_filterMap.mp hv

theorem vif_port_entry_of_ids (xapi : String → String) (name : String)
    (ext : Dict) (ofp : String)
    (hmac : containsKey ext "attached-mac" = true)
    (hid : containsKey ext "iface-id" = true ∨
      containsKey ext "xs-vif-uuid" = true) :
    ∃ v : VifPort, vif_port_entry xapi (name, ext, ofp) = some v ∧
      v.port_name = name ∧ v.ofport = ofp ∧
      v.vif_mac = lookupD ext "attached-mac" := by
  cases hi : containsKey ext "iface-id" with
  | true =>
      refine ⟨⟨name, ofp, lookupD ext "iface-id", lookupD ext "attached-mac"⟩,
        ?_, rfl, rfl, rfl⟩
      simp [vif_port_entry, hi, hmac]
  | false =>
      have hx : containsKey ext "xs-vif-uuid" = true := by
        rcases hid with h | h
        · rw [h] at hi; cases hi
        · exact h
      refine ⟨⟨name, ofp, xapi (lookupD ext "xs-vif-uuid"),
        lookupD ext "attached-mac"⟩, ?_, rfl, rfl, rfl⟩
      simp [vif_port_entry, hi, hx, hmac]

theorem get_vif_ports_insert (xapi : String → String)
    (ports₁ ports₂ : List (String × Dict × String)) (name : String)
    (ext : Dict) (ofp : String)
    (hmac : containsKey ext "attached-mac" = true)
    (hid : containsKey ext "iface-id" = true ∨
      containsKey ext "xs-vif-uuid" = true) :
    ∃ v : VifPort, v.port_name = name ∧ v.ofport = ofp ∧
      v.vif_mac = lookupD ext "attached-mac" ∧
      get_vif_ports xapi (ports₁ ++ (name, ext, ofp) :: ports₂)
        = get_vif_ports xapi ports₁ ++ v :: get_vif_ports xapi ports₂ := by
  obtain ⟨v, hv, h1, h2, h3⟩ := vif_port_entry_of_ids xapi name ext ofp hmac hid
  refine ⟨v, h1, h2, h3, ?_⟩
  simp [get_vif_ports, List.filterMap_append, List.filterMap_cons, hv]

/-! ### Lemmas about `db_str_to_map` -/

theorem splitChars_ne_nil (sep : List Char) :
    ∀ (fuel : Nat) (acc l : List Char), splitChars sep fuel acc l ≠ [] := by
  intro fuel
  induction fuel with
  | zero => intro acc l; simp [splitChars]
  | succ f ih =>
      intro acc l
      cases l with
      | nil => simp [splitChars]
      | cons x rest =>
          simp only [splitChars]
          split
          · simp
          · exact ih (x :: acc) rest

theorem contains_split {c : Char} :
    ∀ {l : List Char}, l.contains c = true →
    ∃ pre post, l = pre ++ c :: post ∧ pre.contains c = false := by
  intro l
  induction l with
  | nil => intro h; simp at h
  | cons x rest ih =>
      intro h
      by_cases hx : c = x
      · exact ⟨[], rest, by rw [hx]; simp, by simp⟩
      · have hr : rest.contains c = true := by
          simp only [List.contains_cons] at h
          rcases Bool.or_eq_true_iff.mp h with h' | h'
          · exact absurd (eq_of_beq h') hx
          · exact h'
        obtain ⟨pre, post, hl, hpre⟩ := ih hr
        refine ⟨x :: pre, post, by rw [List.cons_append, hl], ?_⟩
        simp only [List.contains_cons, Bool.or_eq_false_iff]
        exact ⟨by simpa using hx, hpre⟩

theorem splitChars_no_sep (c : Char) :
    ∀ (l : List Char) (fuel : Nat) (acc : List Char),
    l.contains c = false → l.length ≤ fuel →
    splitChars [c] fuel acc l = [acc.reverse ++ l] := by
  intro l
  induction l with
  | nil =>
      intro fuel acc _ _
      cases fuel <;> simp [splitChars]
  | cons x rest ih =>
      intro fuel acc h hfuel
      obtain ⟨f, rfl⟩ : ∃ f, fuel = f + 1 :=
        ⟨fuel - 1, by simp at hfuel; omega⟩
      have hcx : (c == x) = false := by
        simp only [List.contains_cons, Bool.or_eq_false_iff] at h
        exact h.1
      have hpre : [c].isPrefixOf (x :: rest) = false := by
        simp [List.isPrefixOf, hcx]
      simp only [splitChars, hpre, Bool.false_eq_true, if_false, ite_false]
      rw [ih f (x :: acc)
          (by simp only [List.contains_cons, Bool.or_eq_false_iff] at h; exact h.2)
          (by simp at hfuel; omega)]
      simp

theorem splitChars_first_sep (c : Char) :
    ∀ (pre : List Char) (post : List Char) (fuel : Nat) (acc : List Char),
    pre.contains c = false → pre.length + 1 ≤ fuel →
    splitChars [c] fuel acc (pre ++ c :: post)
      = (acc.reverse ++ pre) :: splitChars [c] (fuel - (pre.length + 1)) [] post := by
  intro pre
  induction pre with
  | nil =>
      intro post fuel acc _ hfuel
      obtain ⟨f, rfl⟩ : ∃ f, fuel = f + 1 := ⟨fuel - 1, by omega⟩
      have hpre : [c].isPrefixOf (c :: post) = true := by
        simp [List.isPrefixOf]
      simp only [List.nil_append, splitChars, hpre, if_true]
      simp
  | cons x pre' ih =>
      intro post fuel acc h hfuel
      obtain ⟨f, rfl⟩ : ∃ f, fuel = f + 1 :=
        ⟨fuel - 1, by simp at hfuel; omega⟩
      have hcx : (c == x) = false := by
        simp only [List.contains_cons, Bool.or_eq_false_iff] at h
        exact h.1
      have hpre : [c].isPrefixOf (x :: (pre' ++ c :: post)) = false := by
        simp [List.isPrefixOf, hcx]
      simp only [List.cons_append, splitChars, List.append_eq, hpre,
        Bool.false_eq_true, if_false, ite_false]
      rw [ih post f (x :: acc)
          (by simp only [List.contains_cons, Bool.or_eq_false_iff] at h; exact h.2)
          (by simp at hfuel; omega)]
      have hn : f + 1 - ((x :: pre').length + 1) = f - (pre'.length + 1) := by
        simp only [List.length_cons]
        omega
      rw [hn]
      simp

theorem strSplitOn_single {e : String} (h : e.toList.contains '=' = false) :
    strSplitOn e "=" = [String.mk e.toList] := by
  rw [strSplitOn]
  rw [show ("=" : String).toList = ['='] from rfl]
  rw [splitChars_no_sep '=' e.toList (e.toList.length + 1) [] h (by omega)]
  simp

theorem strSplitOn_two {e : String} (h : e.toList.contains '=' = true) :
    ∃ x y rest, strSplitOn e "=" = x :: y :: rest := by
  obtain ⟨pre, post, hl, hpre⟩ := contains_split h
  rw [strSplitOn]
  rw [show ("=" : String).toList = ['='] from rfl]
  rw [hl]
  rw [splitChars_first_sep '=' pre post ((pre ++ '=' :: post).length + 1) [] hpre
      (by simp only [List.length_append, List.length_cons]; omega)]
  rcases hsp : splitChars ['=']
      ((pre ++ '=' :: post).length + 1 - (pre.length + 1)) [] post
    with _ | ⟨h2, t2⟩
  · exact absurd hsp (splitChars_ne_nil ['='] _ [] post)
  · exact ⟨String.mk ([].reverse ++ pre), String.mk h2, t2.map String.mk, by simp⟩

theorem foldl_congr_fun {α β : Type} {f g : β → α → β}
    (h : ∀ b a, f b a = g b a) :
    ∀ (l : List α) (init : β), l.foldl f init = l.foldl g init := by
  intro l
  induction l with
  | nil => intro init; rfl
  | cons x rest ih =>
      intro init
      rw [List.foldl_cons, List.foldl_cons, h init x, ih]

/-- The code's map-string decoder agrees everywhere with the amended claim's
description (all-brace strip; key before the first `'='`, value between the
first and second `'='`). -/
theorem db_str_to_map_eq_amended (s : String) :
    db_str_to_map s = db_str_to_map_amended s := by
  rw [db_str_to_map, db_str_to_map_amended]
  apply foldl_congr_fun
  intro ret e
  cases hc : e.toList.contains '=' with
  | false =>
      rw [strSplitOn_single hc]
      simp [hc]
  | true =>
      obtain ⟨x, y, rest, hx⟩ := strSplitOn_two hc
      rw [hx]
      simp [hc, hx]

/-! ### Claim theorems -/

theorem flush_covers (st : DeferredState) (p : FlowOp) (hp : p ∈ st.buffer) :
    ∃ g ∈ (apply_flows defaultConfig st).2, g.1 = p.1 ∧ p.2 ∈ g.2 := by
  have hcmds : (apply_flows defaultConfig st).2
      = groupOpt FlowKind.add (st.buffer.filter (fun q => q.1 == FlowKind.add)) ++
        groupOpt FlowKind.mod (st.buffer.filter (fun q => q.1 == FlowKind.mod)) ++
        groupOpt FlowKind.del (st.buffer.filter (fun q => q.1 == FlowKind.del)) :=
    apply_flows_commands_default st.buffer
  rw [hcmds]
  cases hk : p.1 with
  | add =>
      have hmem : p ∈ st.buffer.filter (fun q => q.1 == FlowKind.add) :=
        List.mem_filter.mpr ⟨hp, by rw [hk]; rfl⟩
      have hne : (st.buffer.filter (fun q => q.1 == FlowKind.add)).isEmpty = false := by
        rcases he : st.buffer.filter (fun q => q.1 == FlowKind.add) with _ | _
        · rw [he] at hmem; cases hmem
        · rw [he]; rfl
      refine ⟨(FlowKind.add,
        (st.buffer.filter (fun q => q.1 == FlowKind.add)).map Prod.snd), ?_, rfl, ?_⟩
      · simp [groupOpt, hne]
      · exact List.mem_map_of_mem Prod.snd hmem
  | mod =>
      have hmem : p ∈ st.buffer.filter (fun q => q.1 == FlowKind.mod) :=
        List.mem_filter.mpr ⟨hp, by rw [hk]; rfl⟩
      have hne : (st.buffer.filter (fun q => q.1 == FlowKind.mod)).isEmpty = false := by
        rcases he : st.buffer.filter (fun q => q.1 == FlowKind.mod) with _ | _
        · rw [he] at hmem; cases hmem
        · rw [he]; rfl
      refine ⟨(FlowKind.mod,
        (st.buffer.filter (fun q => q.1 == FlowKind.mod)).map Prod.snd), ?_, rfl, ?_⟩
      · simp [groupOpt, hne]
      · exact List.mem_map_of_mem Prod.snd hmem
  | del =>
      have hmem : p ∈ st.buffer.filter (fun q => q.1 == FlowKind.del) :=
        List.mem_filter.mpr ⟨hp, by rw [hk]; rfl⟩
      have hne : (st.buffer.filter (fun q => q.1 == FlowKind.del)).isEmpty = false := by
        rcases he : st.buffer.filter (fun q => q.1 == FlowKind.del) with _ | _
        · rw [he] at hmem; cases hmem
        · rw [he]; rfl
      refine ⟨(FlowKind.del,
        (st.buffer.filter (fun q => q.1 == FlowKind.del)).map Prod.snd), ?_, rfl, ?_⟩
      · simp [groupOpt, hne]
      · exact List.mem_map_of_mem Prod.snd hmem

/-- C1: under the default ordering policy (`full_ordered = false`,
`order = ('add', 'mod', 'del')`), `apply_flows` issues the batches grouped in
the fixed kind order add, mod, del regardless of submission order, with one
batched `do_action_flows` call per kind group, and within each kind the
operations keep their relative submission order (the sort by kind weight is
stable). -/
theorem claim_C1_apply_flows_default_order (st : DeferredState) :
    (apply_flows defaultConfig st).2 =
      (if (st.buffer.filter (fun p => p.1 == FlowKind.add)).isEmpty then []
       else [(FlowKind.add,
         (st.buffer.filter (fun p => p.1 == FlowKind.add)).map Prod.snd)]) ++
      (if (st.buffer.filter (fun p => p.1 == FlowKind.mod)).isEmpty then []
       else [(FlowKind.mod,
         (st.buffer.filter (fun p => p.1 == FlowKind.mod)).map Prod.snd)]) ++
      (if (st.buffer.filter (fun p => p.1 == FlowKind.del)).isEmpty then []
       else [(FlowKind.del,
         (st.buffer.filter (fun p => p.1 == FlowKind.del)).map Prod.snd)]) := by
  have h := apply_flows_commands_default st.buffer
  rw [show (apply_flows defaultConfig st).2
        = apply_flows_commands defaultConfig st.buffer from rfl, h]
  rfl

/-- C2: `apply_flows` with an empty buffer issues zero commands; the buffer is
swapped to the empty list before any command is issued (so even a failing
executor leaves it empty), and a second `apply_flows` with no intervening
submissions issues zero commands. -/
theorem claim_C2_apply_flows_empty_buffer :
    (∀ cfg : DeferredConfig, (apply_flows cfg ⟨[]⟩).2 = []) ∧
    (∀ (E : Type) (exec : FlowKind × List Dict → Except E Unit)
       (cfg : DeferredConfig) (st : DeferredState),
       (apply_flows_run exec cfg st).1.buffer = [] ∧
       (apply_flows cfg (apply_flows_run exec cfg st).1).2 = []) :=
  ⟨fun _ => rfl, fun _ _ _ _ => ⟨rfl, rfl⟩⟩

/-- C5: used as a context manager, a `DeferredOVSBridge` flushes via
`apply_flows` on clean exit (every buffered operation appears in the issued
batches), while on exit with an exception nothing is issued, the pending
operations are simply dropped, and the exception is not suppressed. -/
theorem claim_C5_deferred_exit :
    (∀ (cfg : DeferredConfig) (st : DeferredState),
       deferred_exit cfg st (none : Option Unit)
         = ((apply_flows cfg st).1, (apply_flows cfg st).2, false)) ∧
    (∀ (st : DeferredState) (p : FlowOp), p ∈ st.buffer →
       ∃ g ∈ (deferred_exit defaultConfig st (none : Option Unit)).2.1,
         g.1 = p.1 ∧ p.2 ∈ g.2) ∧
    (∀ (E : Type) (e : E) (cfg : DeferredConfig) (st : DeferredState),
       deferred_exit cfg st (some e) = (st, [], false)) :=
  ⟨fun _ _ => rfl,
   fun st p hp => flush_covers st p hp,
   fun _ _ _ _ => rfl⟩

/-- C5 witness: a concrete buffered `mod` operation is flushed by a clean
context-manager exit. -/
theorem claim_C5_deferred_exit_witness :
    ∃ g ∈ (deferred_exit defaultConfig ⟨[(FlowKind.mod, [("actions", "drop")])]⟩
            (none : Option Unit)).2.1,
      g.1 = FlowKind.mod ∧ [("actions", "drop")] ∈ g.2 :=
  claim_C5_deferred_exit.2.1 ⟨[(FlowKind.mod, [("actions", "drop")])]⟩
    (FlowKind.mod, [("actions", "drop")]) (by decide)

theorem filter_chain_eq (d : Dict) :
    (((d.filter (fun p => !(p.1 == "hard_timeout"))).filter
      (fun p => !(p.1 == "idle_timeout"))).filter
      (fun p => !(p.1 == "priority"))).filter (fun p => !(p.1 == "actions"))
    = d.filter (fun p =>
        !(["hard_timeout", "idle_timeout", "priority", "actions"].contains p.1)) := by
  rw [List.filter_filter, List.filter_filter, List.filter_filter]
  apply List.filter_congr
  intro p _
  cases h1 : p.1 == "hard_timeout" <;> cases h2 : p.1 == "idle_timeout" <;>
    cases h3 : p.1 == "priority" <;> cases h4 : p.1 == "actions" <;>
      simp_all [List.contains_cons, beq_iff_eq, beq_eq_false_iff_ne]

/-- C3 (amended): on kind `add` the rendered expression is `hard_timeout=`,
`idle_timeout=`, `priority=` (defaults 0, 0, 1), the remaining fields as
`key=value` tokens (`proto` bare), then `actions=` last; on kind `mod` it is
the remaining fields then `actions=` last; on kind `del` it is exactly the
fields of the rule in iteration order, an `actions` field being rendered in
place as an ordinary token rather than appended last. -/
theorem claim_C3_flow_expr_grammar :
    (∀ d : Dict, (dictKeys d).Nodup → ∀ (e : String) (d' : Dict),
       build_flow_expr_str d "add" = .ok (e, d') → e = spec_flow_expr_add d) ∧
    (∀ d : Dict, (dictKeys d).Nodup → ∀ (e : String) (d' : Dict),
       build_flow_expr_str d "mod" = .ok (e, d') → e = spec_flow_expr_mod_del d) ∧
    (∀ (d : Dict) (e : String) (d' : Dict),
       build_flow_expr_str d "del" = .ok (e, d') →
       e = String.intercalate "," (d.map flowToken)) := by
  refine ⟨?_, ?_, ?_⟩
  · intro d hnd e d' h
    obtain ⟨_, hd, he⟩ := build_add_ok hnd h
    rw [he, hd, filter_chain_eq, spec_flow_expr_add]
  · intro d hnd e d' h
    obtain ⟨_, hc, hd, he⟩ := build_mod_ok hnd h
    rw [he, hd, spec_flow_expr_mod_del, hc]
    simp
  · intro d e d' h
    exact (build_del_ok h).2.2

/-- C3 counterexample: for kind `del` with an `actions` field present, the
code renders `actions=` in place among the fields, not appended last as the
claim states. -/
theorem claim_C3_flow_expr_grammar_counterexample :
    build_flow_expr_str [("actions", "drop"), ("in_port", "1")] "del"
      = .ok ("actions=drop,in_port=1", [("actions", "drop"), ("in_port", "1")]) ∧
    spec_flow_expr_mod_del [("actions", "drop"), ("in_port", "1")]
      = "in_port=1,actions=drop" ∧
    ("actions=drop,in_port=1" : String) ≠ "in_port=1,actions=drop" :=
  ⟨by rfl, by decide, by decide⟩

/-- C3 witness: the amended grammar evaluated on a concrete `add` rule. -/
theorem claim_C3_flow_expr_grammar_witness :
    "hard_timeout=0,idle_timeout=0,priority=5,in_port=1,actions=drop"
      = spec_flow_expr_add [("priority", "5"), ("in_port", "1"), ("actions", "drop")] :=
  claim_C3_flow_expr_grammar.1
    [("priority", "5"), ("in_port", "1"), ("actions", "drop")] (by decide)
    "hard_timeout=0,idle_timeout=0,priority=5,in_port=1,actions=drop"
    [("in_port", "1")] (by rfl)

/-- C4: rendering a `del` or `mod` rule containing `priority` raises the
validation error, rendering an `add` or `mod` rule missing `actions` raises
the validation error, and a failing rule makes `do_action_flows` fail before
any command is issued (the error result carries no command). -/
theorem claim_C4_flow_rule_validation :
    (∀ (d : Dict) (cmd : String), (cmd = "mod" ∨ cmd = "del") →
       containsKey d "priority" = true →
       build_flow_expr_str d cmd
         = .error "Cannot match priority on flow deletion or modification") ∧
    (∀ (d : Dict) (cmd : String), (cmd = "add" ∨ cmd = "mod") →
       containsKey d "actions" = false →
       ∃ m, build_flow_expr_str d cmd = .error m) ∧
    (∀ (action : String) (l : List Dict) (d : Dict), d ∈ l →
       (∃ m, build_flow_expr_str d action = .error m) →
       ∃ m', do_action_flows action l = .error m') := by
  refine ⟨fun d cmd hc h => build_priority_error hc h,
          fun d cmd hc h => build_missing_actions_error hc h,
          fun action l d hd h => ?_⟩
  obtain ⟨m, hm⟩ := h
  exact do_action_flows_error hd hm

/-- C4 witness: the validation failures at concrete rules, including a
`do_action_flows` call that errors before issuing anything. -/
theorem claim_C4_flow_rule_validation_witness :
    build_flow_expr_str [("priority", "1"), ("actions", "drop")] "del"
      = .error "Cannot match priority on flow deletion or modification" ∧
    (∃ m, build_flow_expr_str [("in_port", "1")] "mod" = .error m) ∧
    (∃ m', do_action_flows "mod" [[("in_port", "1")]] = .error m') :=
  ⟨claim_C4_flow_rule_validation.1 [("priority", "1"), ("actions", "drop")] "del"
     (Or.inr rfl) (by decide),
   claim_C4_flow_rule_validation.2.1 [("in_port", "1")] "mod" (Or.inr rfl) (by decide),
   claim_C4_flow_rule_validation.2.2 "mod" [[("in_port", "1")]] [("in_port", "1")]
     (by decide)
     (claim_C4_flow_rule_validation.2.1 [("in_port", "1")] "mod" (Or.inr rfl)
       (by decide))⟩

/-- C10: `_build_flow_expr_str` mutates the rule dict it is given — after a
successful `add` rendering the keys `hard_timeout`, `idle_timeout`,
`priority` and `actions` are gone (other bindings untouched); after a
successful `mod` rendering `actions` is gone; so after `do_action_flows`
returns, every caller-supplied rule dict has lost those keys. -/
theorem claim_C10_flow_dict_mutation :
    (∀ d : Dict, (dictKeys d).Nodup → ∀ (e : String) (d' : Dict),
       build_flow_expr_str d "add" = .ok (e, d') →
       (containsKey d' "hard_timeout" = false ∧
        containsKey d' "idle_timeout" = false ∧
        containsKey d' "priority" = false ∧
        containsKey d' "actions" = false) ∧
       (∀ k : String,
          (["hard_timeout", "idle_timeout", "priority", "actions"].contains k)
            = false →
          containsKey d' k = containsKey d k ∧ lookupD d' k = lookupD d k)) ∧
    (∀ d : Dict, (dictKeys d).Nodup → ∀ (e : String) (d' : Dict),
       build_flow_expr_str d "mod" = .ok (e, d') →
       containsKey d' "actions" = false ∧
       (∀ k : String, (k == "actions") = false →
          containsKey d' k = containsKey d k ∧ lookupD d' k = lookupD d k)) ∧
    (∀ (l : List Dict) (res : OfctlCommand × List Dict),
       (∀ d ∈ l, (dictKeys d).Nodup) →
       do_action_flows "add" l = .ok res →
       ∀ d' ∈ res.2,
         containsKey d' "hard_timeout" = false ∧
         containsKey d' "idle_timeout" = false ∧
         containsKey d' "priority" = false ∧
         containsKey d' "actions" = false) := by
  have hadd : ∀ d : Dict, (dictKeys d).Nodup → ∀ (e : String) (d' : Dict),
      build_flow_expr_str d "add" = .ok (e, d') →
      (containsKey d' "hard_timeout" = false ∧
       containsKey d' "idle_timeout" = false ∧
       containsKey d' "priority" = false ∧
       containsKey d' "actions" = false) ∧
      (∀ k : String,
         (["hard_timeout", "idle_timeout", "priority", "actions"].contains k)
           = false →
         containsKey d' k = containsKey d k ∧ lookupD d' k = lookupD d k) := by
    intro d hnd e d' h
    obtain ⟨_, hd, _⟩ := build_add_ok hnd h
    rw [hd, filter_chain_eq]
    constructor
    · refine ⟨?_, ?_, ?_, ?_⟩ <;>
        exact containsKey_filter_none (fun p hp => by rw [hp]; decide)
    · intro k hk
      constructor
      · exact containsKey_filter (fun p hp => by rw [hp, hk]; rfl)
      · exact lookupD_filter (fun p hp => by rw [hp, hk]; rfl)
  refine ⟨hadd, ?_, ?_⟩
  · intro d hnd e d' h
    obtain ⟨_, _, hd, _⟩ := build_mod_ok hnd h
    rw [hd]
    refine ⟨containsKey_filter_none (fun p hp => by rw [hp]; decide), ?_⟩
    intro k hk
    constructor
    · exact containsKey_filter (fun p hp => by rw [hp, hk]; rfl)
    · exact lookupD_filter (fun p hp => by rw [hp, hk]; rfl)
  · intro l res hnd h d' hd'
    obtain ⟨d, hdl, e, hde⟩ := do_action_flows_ok_mem h d' hd'
    exact ((hadd d (hnd d hdl) e d' hde).1)

/-- C10 witness: a concrete `add` rendering strips the four special keys and
keeps the other binding. -/
theorem claim_C10_flow_dict_mutation_witness :
    (containsKey [("in_port", "1")] "hard_timeout" = false ∧
     containsKey [("in_port", "1")] "idle_timeout" = false ∧
     containsKey [("in_port", "1")] "priority" = false ∧
     containsKey [("in_port", "1")] "actions" = false) ∧
    (∀ k : String,
       (["hard_timeout", "idle_timeout", "priority", "actions"].contains k)
         = false →
       containsKey [("in_port", "1")] k
           = containsKey [("priority", "5"), ("in_port", "1"), ("actions", "drop")] k ∧
       lookupD [("in_port", "1")] k
           = lookupD [("priority", "5"), ("in_port", "1"), ("actions", "drop")] k) :=
  claim_C10_flow_dict_mutation.1
    [("priority", "5"), ("in_port", "1"), ("actions", "drop")] (by decide)
    "hard_timeout=0,idle_timeout=0,priority=5,in_port=1,actions=drop"
    [("in_port", "1")] (by rfl)

/-- C6: a polled ofport value is classified pending exactly when it cannot be
parsed as an integer; a poll that is pending for the first `K` calls and then
parses resolves to that polled integer value provided the cumulative backoff
stays within the `vsctl_timeout * 1000` ms deadline; a poll that never parses
makes `get_port_ofport` return `INVALID_OFPORT` instead of raising. -/
theorem claim_C6_ofport_retry :
    (∀ r : Option String, ofport_result_pending r = true ↔ pyIntOpt r = none) ∧
    (∀ (poll : Nat → Option String) (K T : Nat),
       (∀ i, i < K → ofport_result_pending (poll i) = true) →
       ofport_result_pending (poll K) = false →
       sumWaitsFrom 0 K ≤ T * 1000 →
       (∃ n : Int, pyIntOpt (poll K) = some n) ∧
       get_port_ofport poll T = poll K) ∧
    (∀ (poll : Nat → Option String) (T : Nat),
       (∀ i, ofport_result_pending (poll i) = true) →
       get_port_ofport poll T = some INVALID_OFPORT) := by
  refine ⟨?_, ?_, ?_⟩
  · intro r
    rw [ofport_result_pending, Option.isNone_iff_eq_none]
  · intro poll K T hpend hres hdl
    constructor
    · rw [ofport_result_pending] at hres
      rcases hv : pyIntOpt (poll K) with _ | n
      · rw [hv] at hres; cases hres
      · exact ⟨n, rfl⟩
    · exact get_port_ofport_resolve poll K T hpend hres hdl
  · intro poll T h
    exact get_port_ofport_timeout poll T h

/-- C6 witness: a poll pending twice then returning `"7"` resolves to `"7"`
within a 10-second deadline, and an always-pending poll yields the invalid
sentinel. -/
theorem claim_C6_ofport_retry_witness :
    get_port_ofport (fun i => if i < 2 then some "[]" else some "7") 10
      = some "7" ∧
    get_port_ofport (fun _ => some "[]") 10 = some INVALID_OFPORT := by
  constructor
  · have h := claim_C6_ofport_retry.2.1
      (fun i => if i < 2 then some "[]" else some "7") 2 10
      (by
        intro i hi
        have : i = 0 ∨ i = 1 := by omega
        rcases this with rfl | rfl <;> decide)
      (by decide) (by decide)
    rw [h.2]
    decide
  · exact claim_C6_ofport_retry.2.2 (fun _ => some "[]") 10
      (by intro i; show ofport_result_pending (some "[]") = true; decide)

/-- C7: `add_port` deletes the just-created port and returns the sentinel
exactly when the resolved ofport is `INVALID_OFPORT`; otherwise no delete
command is issued and the resolved ofport is returned. -/
theorem claim_C7_add_port_cleanup (br_name port_name : String)
    (opts : List (String × String)) (ofport : Option String) :
    (ofport = some INVALID_OFPORT →
       add_port br_name port_name opts ofport
         = ([add_port_args br_name port_name opts,
             delete_port_args br_name port_name], some INVALID_OFPORT)) ∧
    (ofport ≠ some INVALID_OFPORT →
       add_port br_name port_name opts ofport
         = ([add_port_args br_name port_name opts], ofport)) := by
  constructor
  · intro h
    subst h
    rw [add_port, if_pos (by decide)]
  · intro h
    rw [add_port, if_neg (by simpa using h)]

/-- C7 witness: the two branches of `add_port` at concrete inputs. -/
theorem claim_C7_add_port_cleanup_witness :
    add_port "br-int" "tap0" [] (some "-1")
      = ([add_port_args "br-int" "tap0" [], delete_port_args "br-int" "tap0"],
         some "-1") ∧
    add_port "br-int" "tap0" [] (some "5")
      = ([add_port_args "br-int" "tap0" []], some "5") :=
  ⟨(claim_C7_add_port_cleanup "br-int" "tap0" [] (some "-1")).1 rfl,
   (claim_C7_add_port_cleanup "br-int" "tap0" [] (some "5")).2 (by decide)⟩

/-- C8 (amended): `get_vif_port_set` excludes every row whose ofport is not a
positive integer (deleting such a row leaves the result unchanged) and yields
an identifier only from rows with positive integer ofport, an `attached-mac`,
and an attachment identifier (`iface-id`, or `xs-vif-uuid` on the fallback
path); `get_vif_ports` performs no ofport check: an interface is returned
only if its external ids carry an attachment identifier and `attached-mac`,
and every interface carrying both is returned — whatever string the ofport
poll produced, parseable or not. -/
theorem claim_C8_vif_port_filtering :
    (∀ (xapi : String → String) (rows₁ rows₂ : List (Dict × DbCell))
       (ext : Dict) (c : DbCell),
       (∀ n : Int, c = DbCell.int n → n < 1) →
       get_vif_port_set xapi (rows₁ ++ (ext, c) :: rows₂)
         = get_vif_port_set xapi (rows₁ ++ rows₂)) ∧
    (∀ (xapi : String → String) (rows : List (Dict × DbCell)) (x : String),
       x ∈ get_vif_port_set xapi rows →
       ∃ row ∈ rows, (∃ n : Int, row.2 = DbCell.int n ∧ 1 ≤ n) ∧
         containsKey row.1 "attached-mac" = true ∧
         (containsKey row.1 "iface-id" = true ∨
           containsKey row.1 "xs-vif-uuid" = true)) ∧
    (∀ (xapi : String → String) (ports : List (String × Dict × String))
       (v : VifPort), v ∈ get_vif_ports xapi ports →
       ∃ e ∈ ports, containsKey e.2.1 "attached-mac" = true ∧
         (containsKey e.2.1 "iface-id" = true ∨
           containsKey e.2.1 "xs-vif-uuid" = true) ∧
         v.port_name = e.1 ∧ v.ofport = e.2.2) ∧
    (∀ (xapi : String → String) (ports₁ ports₂ : List (String × Dict × String))
       (name : String) (ext : Dict) (ofp : String),
       containsKey ext "attached-mac" = true →
       (containsKey ext "iface-id" = true ∨
         containsKey ext "xs-vif-uuid" = true) →
       ∃ v : VifPort, v.port_name = name ∧ v.ofport = ofp ∧
         v.vif_mac = lookupD ext "attached-mac" ∧
         get_vif_ports xapi (ports₁ ++ (name, ext, ofp) :: ports₂)
           = get_vif_ports xapi ports₁ ++ v :: get_vif_ports xapi ports₂) := by
  refine ⟨get_vif_port_set_skip, ?_, ?_, get_vif_ports_insert⟩
  · intro xapi rows x hx
    obtain ⟨row, hrow, hsome⟩ := get_vif_port_set_mem hx
    exact ⟨row, hrow, vif_set_entry_some_inv hsome⟩
  · intro xapi ports v hv
    obtain ⟨e, he, hsome⟩ := get_vif_ports_mem hv
    exact ⟨e, he, vif_port_entry_some_inv hsome⟩

/-- C8 counterexample: `get_vif_ports` does NOT exclude an interface whose
ofport is not a positive integer — a port whose polled ofport is the
unparseable string `"[]"` is still returned, contradicting the claim that
both functions exclude such interfaces. -/
theorem claim_C8_vif_port_filtering_counterexample :
    get_vif_ports (fun _ => "")
        [("p1", [("iface-id", "i1"), ("attached-mac", "m1")], "[]")]
      = [⟨"p1", "[]", "i1", "m1"⟩] ∧
    pyIntChars "[]".toList = none := by
  constructor
  · rfl
  · decide

/-- C8 witness: the amended characterization at concrete rows — a
non-positive-integer row is dropped from `get_vif_port_set`, a qualifying
row's membership implies the stated conditions, and a qualifying interface
whose polled ofport is the unparseable `"[]"` is still returned by
`get_vif_ports`. -/
theorem claim_C8_vif_port_filtering_witness :
    get_vif_port_set (fun _ => "")
        ([([("iface-id", "i"), ("attached-mac", "m")], DbCell.int 3)] ++
          ([("iface-id", "j"), ("attached-mac", "m")], DbCell.int 0) :: [])
      = get_vif_port_set (fun _ => "")
          ([([("iface-id", "i"), ("attached-mac", "m")], DbCell.int 3)] ++ []) ∧
    (∃ row ∈ [([("iface-id", "i"), ("attached-mac", "m")], DbCell.int 3)],
       (∃ n : Int, row.2 = DbCell.int n ∧ 1 ≤ n) ∧
       containsKey row.1 "attached-mac" = true ∧
       (containsKey row.1 "iface-id" = true ∨
         containsKey row.1 "xs-vif-uuid" = true)) ∧
    (∃ v : VifPort, v.port_name = "p2" ∧ v.ofport = "[]" ∧
       v.vif_mac = lookupD [("iface-id", "i2"), ("attached-mac", "m2")]
         "attached-mac" ∧
       get_vif_ports (fun _ => "")
           ([] ++ ("p2", [("iface-id", "i2"), ("attached-mac", "m2")], "[]") :: [])
         = get_vif_ports (fun _ => "") [] ++
             v :: get_vif_ports (fun _ => "") []) :=
  ⟨claim_C8_vif_port_filtering.1 (fun _ => "")
     [([("iface-id", "i"), ("attached-mac", "m")], DbCell.int 3)] []
     [("iface-id", "j"), ("attached-mac", "m")] (DbCell.int 0)
     (by intro n hn; cases hn; decide),
   claim_C8_vif_port_filtering.2.1 (fun _ => "")
     [([("iface-id", "i"), ("attached-mac", "m")], DbCell.int 3)] "i"
     (by decide),
   claim_C8_vif_port_filtering.2.2.2 (fun _ => "") [] []
     "p2" [("iface-id", "i2"), ("attached-mac", "m2")] "[]"
     (by decide) (Or.inl (by decide))⟩

/-- C9 (amended): `db_str_to_map` strips all leading and trailing brace
characters (not just one pair), splits on `", "`, skips entries without `=`,
and binds the text before the first `=` to the text between the first and
second `=` (not everything after the first `=`), with surrounding double
quotes stripped; parsing `{a="1", b="2"}` yields `{a: "1", b: "2"}`. -/
theorem claim_C9_db_str_to_map :
    db_str_to_map "\x7ba=\"1\", b=\"2\"\x7d" = [("a", "1"), ("b", "2")] ∧
    ∀ s : String, db_str_to_map s = db_str_to_map_amended s :=
  ⟨by decide, db_str_to_map_eq_amended⟩

/-- C9 counterexample: on `{{a=b=c}}` the code strips both brace pairs and
keeps only the text between the first and second `=`, yielding `{a: "b"}`,
while the claim's reading (one brace pair, split at the first `=`) would
yield a different mapping. -/
theorem claim_C9_db_str_to_map_counterexample :
    db_str_to_map "\x7b\x7ba=b=c\x7d\x7d" = [("a", "b")] ∧
    db_str_to_map_claimed "\x7b\x7ba=b=c\x7d\x7d" = [("\x7ba", "b=c\x7d")] ∧
    db_str_to_map "\x7b\x7ba=b=c\x7d\x7d"
      ≠ db_str_to_map_claimed "\x7b\x7ba=b=c\x7d\x7d" :=
  ⟨by decide, by decide, by decide⟩

end OvsLib
